import Mathlib

/-!
Verification development for the gosmee web UI backend.

The definitions below are shallow embeddings of the Go source:
machine integers are modelled as `Int`, Go `time.Time` values as `Int`
nanosecond counts where `0` plays the role of Go's zero time
(`IsZero`, `Before`, `After` become `= 0`, `<`, `>`), Go maps built from
JSON objects as association lists with first-match lookup, fallible
functions as `Except String`, and a Go runtime panic as an
`Except.error`.  Each definition's doc comment names the Go function it
embeds.
-/

namespace Gosmee

/-! ## Quota model — `backend/internal/models/quota.go` -/

/-- `models.Quota` (quota.go). `Percentage` is a `float64` in Go used only
through order comparisons here, embedded as a rational.  The `UpdatedAt`
timestamp is not relevant to any property below and is omitted. -/
structure Quota where
  userID : String
  totalBytes : Int
  usedBytes : Int
  percentage : ℚ
  clientsCount : Int
  maxClients : Int
deriving DecidableEq

/-- `Quota.IsStorageFull` (quota.go line 45): `q.Percentage >= 100.0`. -/
def Quota.IsStorageFull (q : Quota) : Bool :=
  decide (q.percentage ≥ 100)

/-- `Quota.IsStorageWarning` (quota.go line 50): `q.Percentage >= 80.0`. -/
def Quota.IsStorageWarning (q : Quota) : Bool :=
  decide (q.percentage ≥ 80)

/-- `Quota.IsClientsLimitReached` (quota.go line 55):
`q.ClientsCount >= q.MaxClients`. -/
def Quota.IsClientsLimitReached (q : Quota) : Bool :=
  decide (q.clientsCount ≥ q.maxClients)

/-- `Quota.CanCreateClient` (quota.go line 60):
`!q.IsClientsLimitReached()`.  Note that it does not consult
`IsStorageFull`. -/
def Quota.CanCreateClient (q : Quota) : Bool :=
  !q.IsClientsLimitReached

/-- The quota gate of `ClientService.Create` (client service, lines
47-93): after fetching the owner's quota it rejects the creation with
`"client limit reached: %d/%d"` when `CanCreateClient` is false and
otherwise proceeds to create the client.  The uuid generation,
repository write and cache invalidation that follow on the success path
do not influence the accept/reject decision and are collapsed into the
`ok` result. -/
def clientServiceCreate (quota : Quota) : Except String Unit :=
  if !quota.CanCreateClient then
    .error ("client limit reached: " ++ toString quota.clientsCount ++ "/" ++
      toString quota.maxClients)
  else
    .ok ()

/-- Concrete quota whose storage usage percentage is 150 (storage cap
exceeded) while the client count is far below the cap. -/
def quotaStorageFull : Quota :=
  { userID := "u1", totalBytes := 100, usedBytes := 150, percentage := 150,
    clientsCount := 0, maxClients := 10 }

/-! ## Event decoding — `backend/internal/models/event.go` -/

/-- JSON values as decoded by Go's `encoding/json` into
`map[string]interface{}`.  Objects are association lists looked up by
first match; numbers are restricted to the integral values the decoder
feeds through `toInt` in the claims below. -/
inductive JsonVal where
  | str : String → JsonVal
  | num : Int → JsonVal
  | jbool : Bool → JsonVal
  | null : JsonVal
  | arr : List JsonVal → JsonVal
  | obj : List (String × JsonVal) → JsonVal

/-- Go map indexing `raw[key]` on a decoded JSON object. -/
def jlookup (key : String) : List (String × JsonVal) → Option JsonVal
  | [] => none
  | (k, v) :: rest => if key == k then some v else jlookup key rest

mutual
/-- Re-serialization as performed by `json.Marshal` inside
`stringifyValue` (event.go line 267).  Go sorts object keys
alphabetically when marshalling a map; the association list is emitted
in stored order here, and strings are quoted without escaping — neither
difference is observable in the properties proved below, which never
compare serialized payload text. -/
def jsonMarshal : JsonVal → String
  | .str s => "\"" ++ s ++ "\""
  | .num n => toString n
  | .jbool b => if b then "true" else "false"
  | .null => "null"
  | .arr xs => "[" ++ jsonMarshalList xs ++ "]"
  | .obj fs => "\x7b" ++ jsonMarshalFields fs ++ "\x7d"

def jsonMarshalList : List JsonVal → String
  | [] => ""
  | [x] => jsonMarshal x
  | x :: rest => jsonMarshal x ++ "," ++ jsonMarshalList rest

def jsonMarshalFields : List (String × JsonVal) → String
  | [] => ""
  | [(k, v)] => "\"" ++ k ++ "\":" ++ jsonMarshal v
  | (k, v) :: rest => "\"" ++ k ++ "\":" ++ jsonMarshal v ++ "," ++ jsonMarshalFields rest
end

/-- `toString` (event.go line 160): strings are whitespace-trimmed,
`nil` becomes `""`, everything else goes through `fmt.Sprint` and a
trim; for the integral numbers modelled here `fmt.Sprint` prints the
decimal representation. -/
def goToString : JsonVal → String
  | .str s => s.trim
  | .null => ""
  | .num n => (toString n).trim
  | .jbool b => if b then "true" else "false"
  | v => (jsonMarshal v).trim

/-- `toInt` (event.go line 175): numbers convert directly (a `float64`
is truncated — exact on the integral values modelled), strings go
through `strconv.Atoi` on the trimmed text, and every other shape
yields `0`. -/
def goToInt : JsonVal → Int
  | .num n => n
  | .str s => (s.trim.toInt?).getD 0
  | _ => 0

/-- `extractString` (event.go line 130). -/
def extractString (raw : List (String × JsonVal)) (key : String) : String :=
  match jlookup key raw with
  | some v => goToString v
  | none => ""

/-- `firstNonEmptyString` (event.go line 140). -/
def firstNonEmptyString (raw : List (String × JsonVal)) : List String → String
  | [] => ""
  | key :: keys =>
    let value := extractString raw key
    if value ≠ "" then value else firstNonEmptyString raw keys

/-- `firstNonZeroInt` (event.go line 149). -/
def firstNonZeroInt (raw : List (String × JsonVal)) : List String → Int
  | [] => 0
  | key :: keys =>
    match jlookup key raw with
    | some v => if goToInt v ≠ 0 then goToInt v else firstNonZeroInt raw keys
    | none => firstNonZeroInt raw keys

/-- `extractMap` / `toMap` (event.go lines 218, 228): only an actual
JSON object yields a map, anything else gives `nil` (the empty list). -/
def extractMap (raw : List (String × JsonVal)) (key : String) : List (String × JsonVal) :=
  match jlookup key raw with
  | some (.obj fields) => fields
  | _ => []

/-- `extractStringMap` (event.go line 243). -/
def extractStringMap (raw : List (String × JsonVal)) (key : String) : List (String × String) :=
  (extractMap raw key).map (fun p => (p.1, goToString p.2))

/-- `stringifyValue` (event.go line 255) on a present value. -/
def stringifyValue : JsonVal → String
  | .str s => s.trim
  | .null => ""
  | v => jsonMarshal v

/-- `stringifyValue(raw[key])`: a missing Go map key yields `nil`,
which stringifies to `""`. -/
def stringifyKey (raw : List (String × JsonVal)) (key : String) : String :=
  match jlookup key raw with
  | some v => stringifyValue v
  | none => ""

/-- Event status strings (event.go lines 18-20). -/
def eventStatusSuccess : String := "success"

def eventStatusFailed : String := "failed"

def eventStatusNotReplayed : String := "not_replayed"

/-- `models.Event` (event.go).  `Timestamp` is an `Int` nanosecond
count, `0` standing for Go's zero `time.Time`. -/
structure Event where
  id : String
  clientID : String
  timestamp : Int
  eventType : String
  source : String
  status : String
  statusCode : Int
  latencyMs : Int
  headers : List (String × String)
  payload : String
  response : String
  errorMessage : String
deriving DecidableEq

/-- The zero `models.Event` that `readEventFile` unmarshals into. -/
def Event.zero : Event :=
  { id := "", clientID := "", timestamp := 0, eventType := "", source := "",
    status := "", statusCode := 0, latencyMs := 0, headers := [],
    payload := "", response := "", errorMessage := "" }

/-- The status-code coalescing of `Event.UnmarshalJSON` (event.go lines
58 and 61-64): take the first non-zero top-level `statusCode` /
`status_code`, falling back to the nested `response.status_code` when a
response object is present and the top-level value was zero. -/
def extractedStatusCode (raw : List (String × JsonVal)) : Int :=
  let statusCode := firstNonZeroInt raw ["statusCode", "status_code"]
  let resp := extractMap raw "response"
  if resp.length > 0 ∧ statusCode = 0 then firstNonZeroInt resp ["status_code"]
  else statusCode

/-- The status inference of `Event.UnmarshalJSON` (event.go lines
76-83): when no structured status was decoded, a 2xx status code means
`success` and any other strictly positive code means `failed`; otherwise
the status stays as decoded (possibly empty). -/
def inferStatus (status : String) (statusCode : Int) : String :=
  if status = "" then
    if 200 ≤ statusCode ∧ statusCode < 300 then eventStatusSuccess
    else if 0 < statusCode then eventStatusFailed
    else ""
  else status

/-- `Event.UnmarshalJSON` (event.go lines 40-104) on a JSON object that
decoded into `raw`.  `parseTime` stands for
`time.Parse(time.RFC3339, ·)`, factored out as a parameter (`none`
meaning a parse error, in which case the timestamp keeps its zero
value); every claim below holds for an arbitrary parse function. -/
def unmarshalEvent (parseTime : String → Option Int) (raw : List (String × JsonVal)) : Event :=
  let id := extractString raw "id"
  let clientID := firstNonEmptyString raw ["clientId", "client_id"]
  let eventType := firstNonEmptyString raw ["eventType", "event_type"]
  let source := extractString raw "source"
  let status := firstNonEmptyString raw ["status", "forward_status"]
  let ts := firstNonEmptyString raw ["timestamp", "time", "created_at"]
  let timestamp : Int :=
    if ts ≠ "" then
      match parseTime ts with
      | some t => t
      | none => 0
    else 0
  let statusCode := extractedStatusCode raw
  let latencyMs := firstNonZeroInt raw ["latencyMs", "latency_ms"]
  let resp := extractMap raw "response"
  let latencyMs := if resp.length > 0 ∧ latencyMs = 0 then firstNonZeroInt resp ["latency_ms"] else latencyMs
  let response := if resp.length > 0 then stringifyValue (.obj resp) else ""
  let errorMessage := if resp.length > 0 then extractString resp "error" else ""
  let status := inferStatus status statusCode
  let headers := extractStringMap raw "headers"
  let payload := stringifyKey raw "payload"
  let response := if stringifyKey raw "response" ≠ "" ∧ response = "" then stringifyKey raw "response" else response
  let errorMessage :=
    if firstNonEmptyString raw ["errorMessage", "error_message"] ≠ "" then
      firstNonEmptyString raw ["errorMessage", "error_message"]
    else errorMessage
  { id := id, clientID := clientID, timestamp := timestamp,
    eventType := eventType, source := source, status := status,
    statusCode := statusCode, latencyMs := latencyMs, headers := headers,
    payload := payload, response := response, errorMessage := errorMessage }

/-- `EventSummary` (event.go lines 107-115). -/
structure EventSummary where
  id : String
  timestamp : Int
  eventType : String
  source : String
  status : String
  statusCode : Int
  latencyMs : Int
deriving DecidableEq

/-- `Event.ToSummary` (event.go lines 118-128). -/
def Event.toSummary (e : Event) : EventSummary :=
  { id := e.id, timestamp := e.timestamp, eventType := e.eventType,
    source := e.source, status := e.status, statusCode := e.statusCode,
    latencyMs := e.latencyMs }

/-- The status backfill step of `FileEventRepository.enrichEventFromPath`
(event repository, lines 508-510): a decoded event with no status is
marked `not_replayed`.  The other backfills of that function (identifier,
client key, timestamp, payload, headers) never touch the status field. -/
def enrichEventStatus (e : Event) : Event :=
  if e.status = "" then { e with status := eventStatusNotReplayed } else e

/-- The fully structured canonical file shape for an event record. -/
def canonicalShape (id clientID ts etype source status : String) (sc lat : Int)
    (payload : String) : List (String × JsonVal) :=
  [("id", .str id), ("clientId", .str clientID), ("timestamp", .str ts),
   ("eventType", .str etype), ("source", .str source), ("status", .str status),
   ("statusCode", .num sc), ("latencyMs", .num lat), ("payload", .str payload)]

/-- The legacy snake_case file shape for the same event record: alternate
field names and the response metadata nested under a `response` object. -/
def legacyShape (id clientID ts etype source status : String) (sc lat : Int)
    (payload : String) : List (String × JsonVal) :=
  [("id", .str id), ("client_id", .str clientID), ("time", .str ts),
   ("event_type", .str etype), ("source", .str source),
   ("forward_status", .str status),
   ("response", .obj [("status_code", .num sc), ("latency_ms", .num lat)]),
   ("payload", .str payload)]

/-! ## Event listing — filter, sort, pagination (event repository) -/

/-- `models.EventListRequest` (event.go lines 276-286). -/
structure EventListRequest where
  page : Int
  pageSize : Int
  eventType : String
  status : String
  search : String
  dateFrom : Int
  dateTo : Int
  sortBy : String
  sortOrder : String
deriving DecidableEq

/-- Lower-cased character sequence of a string, embedding
`strings.ToLower` (ASCII case folding suffices for the claims below). -/
def lowerChars (s : String) : List Char :=
  s.data.map Char.toLower

/-- Does the first list start with the second? -/
def charsStartWith : List Char → List Char → Bool
  | _, [] => true
  | [], _ :: _ => false
  | c :: cs, d :: ds => c == d && charsStartWith cs ds

/-- `strings.Contains` on character lists: the needle occurs
contiguously inside the haystack. -/
def charsContain : List Char → List Char → Bool
  | [], needle => needle.isEmpty
  | c :: rest, needle => charsStartWith (c :: rest) needle || charsContain rest needle

/-- `strings.Contains(strings.ToLower(s), strings.ToLower(sub))` as used
by the source search filter. -/
def containsLower (s sub : String) : Bool :=
  charsContain (lowerChars s) (lowerChars sub)

/-- The per-event predicate of `FileEventRepository.filterEvents` (event
repository, lines 414-445): exact event-type match, exact status match,
case-insensitive substring match on source, then the date-range checks
`event.Timestamp.Before(req.DateFrom)` and
`event.Timestamp.After(req.DateTo)` with a zero bound disabling that
side. -/
def keepEvent (req : EventListRequest) (e : Event) : Bool :=
  if req.eventType ≠ "" ∧ e.eventType ≠ req.eventType then false
  else if req.status ≠ "" ∧ e.status ≠ req.status then false
  else if req.search ≠ "" ∧ ¬(containsLower e.source req.search = true) then false
  else if req.dateFrom ≠ 0 ∧ e.timestamp < req.dateFrom then false
  else if req.dateTo ≠ 0 ∧ e.timestamp > req.dateTo then false
  else true

/-- `FileEventRepository.filterEvents` (event repository, lines
413-445): the loop appends exactly the events passing every filter, in
input order. -/
def filterEvents (events : List Event) (req : EventListRequest) : List Event :=
  events.filter (keepEvent req)

/-- The comparison closure passed to `sort.Slice` by
`FileEventRepository.sortEvents` (event repository, lines 448-467):
field-wise `less`, returned directly for `"asc"` and negated
otherwise. -/
def goLess (sortBy : String) (a b : Event) : Bool :=
  match sortBy with
  | "eventType" => decide (a.eventType < b.eventType)
  | "status" => decide (a.status < b.status)
  | "timestamp" => decide (a.timestamp < b.timestamp)
  | _ => decide (a.timestamp < b.timestamp)

/-- The full comparator including the `sortOrder` negation. -/
def sortCmp (sortBy sortOrder : String) (a b : Event) : Bool :=
  let less := goLess sortBy a b
  if sortOrder == "asc" then less else !less

/-- One bubbling step of Go's `insertionSort`: insert `x` arriving from
the right into the reversed already-sorted prefix `racc`, swapping left
while `cmp x prev` holds. -/
def insRev (cmp : α → α → Bool) (x : α) : List α → List α
  | [] => [x]
  | y :: ys => if cmp x y then y :: insRev cmp x ys else x :: y :: ys

/-- Left fold of `insRev` over the input, carrying the reversed
prefix. -/
def sortSliceAux (cmp : α → α → Bool) (racc : List α) : List α → List α
  | [] => racc
  | x :: xs => sortSliceAux cmp (insRev cmp x racc) xs

/-- `sort.Slice` as executed on the slices at issue: Go's `pdqsort`
runs plain `insertionSort` on ranges of at most 12 elements
(`maxInsertion = 12`), so this embedding is exact for inputs of length
at most 12 — the regime used by every theorem about it below. -/
def sortSlice (cmp : α → α → Bool) (l : List α) : List α :=
  (sortSliceAux cmp [] l).reverse

/-- `FileEventRepository.sortEvents` (event repository, lines
447-467). -/
def sortEvents (events : List Event) (sortBy sortOrder : String) : List Event :=
  sortSlice (sortCmp sortBy sortOrder) events

/-- Go slice expression `l[a:b]` on a slice of length `len l`: panics
(modelled as `Except.error`) unless `0 ≤ a ≤ b ≤ len l`. -/
def goSlice (l : List α) (a b : Int) : Except String (List α) :=
  if 0 ≤ a ∧ a ≤ b ∧ b ≤ (l.length : Int) then
    .ok ((l.drop a.toNat).take (b - a).toNat)
  else
    .error "slice bounds out of range"

/-- `models.EventListResponse` (event.go lines 289-294), with the page
of summaries. -/
structure EventListResponse where
  total : Int
  page : Int
  pageSize : Int
  events : List EventSummary
deriving DecidableEq

/-- The filter-then-sort prefix of `FileEventRepository.GetByClientID`
(event repository, lines 98-101). -/
def listedEvents (events : List Event) (req : EventListRequest) : List Event :=
  sortEvents (filterEvents events req) req.sortBy req.sortOrder

/-- The pagination step of `FileEventRepository.GetByClientID` (event
repository, lines 104-115): `start := (page-1)*pageSize`,
`end := start+pageSize`, both reset to `0` when `start >= total`, `end`
clamped to `total`, then the Go slice `filtered[start:end]` — whose
panic on out-of-range bounds is the `Except.error` case. -/
def paginateGo (filtered : List α) (page pageSize : Int) : Except String (List α) :=
  let total : Int := filtered.length
  let start := (page - 1) * pageSize
  let stop := start + pageSize
  let start2 := if start ≥ total then 0 else start
  let stop2 := if start ≥ total then 0 else stop
  let stop3 := if stop2 > total then total else stop2
  goSlice filtered start2 stop3

/-- `FileEventRepository.GetByClientID` (event repository, lines
77-129) after the events directory has been read: filter, sort,
paginate, and convert the page to summaries. -/
def getByClientID (events : List Event) (req : EventListRequest) :
    Except String EventListResponse :=
  let filtered := listedEvents events req
  match paginateGo filtered req.page req.pageSize with
  | .error e => .error e
  | .ok paged =>
    .ok { total := filtered.length, page := req.page, pageSize := req.pageSize,
          events := paged.map Event.toSummary }

/-- The default/limit normalization of `EventHandler.List`
(event_handler.go lines 40-49): a zero page becomes 1, a zero page size
becomes 20, and page sizes above 100 are clamped to 100 (the two page
size updates are sequential in the source and independent of the page
update).  Negative values pass through unchanged. -/
def normalizeListRequest (req : EventListRequest) : EventListRequest :=
  { req with
    page := if req.page == 0 then 1 else req.page,
    pageSize :=
      let ps := if req.pageSize == 0 then 20 else req.pageSize
      if ps > 100 then 100 else ps }

/-- `EventHandler.List` composed with the repository listing: the
handler normalizes the bound query and forwards it. -/
def handlerList (events : List Event) (req : EventListRequest) :
    Except String EventListResponse :=
  getByClientID events (normalizeListRequest req)

/-! ## Event deletion — `FileEventRepository.Delete` / `DeleteBatch` -/

/-- The client's events directory: event identifiers of the `.json`
records in the flat layout plus per-day subdirectories.  The companion
`.sh` scripts are removed together with their record and never affect
the control flow (`os.Remove` errors on them are ignored), so only the
primary records are tracked. -/
structure EventsDir where
  flat : List String
  dated : List (String × List String)
deriving DecidableEq

/-- Is an event id present anywhere in the directory tree? -/
def EventsDir.containsId (fs : EventsDir) (eventID : String) : Bool :=
  fs.flat.contains eventID || fs.dated.any (fun d => d.2.contains eventID)

/-- Every event id in the tree, flat records first then the per-day
directories in order. -/
def EventsDir.allIds (fs : EventsDir) : List String :=
  fs.flat ++ fs.dated.flatMap (fun d => d.2)

/-- The date-directory loop of `FileEventRepository.Delete` (event
repository, lines 192-206): scan directories in order, remove the
record from the first directory containing it and stop, `none` when no
directory has it. -/
def deleteFromDated (eventID : String) :
    List (String × List String) → Option (List (String × List String))
  | [] => none
  | d :: rest =>
    if d.2.contains eventID then some ((d.1, d.2.erase eventID) :: rest)
    else
      match deleteFromDated eventID rest with
      | some rest2 => some (d :: rest2)
      | none => none

/-- `FileEventRepository.Delete` (event repository, lines 168-209): the
flat record is removed if present, otherwise the day directories are
scanned, and `"event not found"` is returned when neither holds. -/
def deleteEvent (fs : EventsDir) (eventID : String) : EventsDir × Except String Unit :=
  if fs.flat.contains eventID then
    ({ fs with flat := fs.flat.erase eventID }, .ok ())
  else
    match deleteFromDated eventID fs.dated with
    | some dated2 => ({ fs with dated := dated2 }, .ok ())
    | none => (fs, .error ("event not found: " ++ eventID))

/-- `FileEventRepository.DeleteBatch` (event repository, lines 212-220):
delete each id in turn, discarding any individual error (`continue`),
and finally return `nil`.  The return type carries no per-item
outcomes. -/
def deleteBatch (fs : EventsDir) : List String → EventsDir × Except String Unit
  | [] => (fs, .ok ())
  | eventID :: rest => deleteBatch (deleteEvent fs eventID).1 rest

/-! ## Process supervision — `process.go`, process service -/

/-- `models.ClientStatus` values as used by the supervisor. -/
inductive ClientStatus where
  | running
  | stopped
  | error
deriving DecidableEq

/-- The log-hub state of `models.ProcessInfo` (process.go): the
in-memory history plus one bounded buffer per registered subscriber
channel.  A channel's pending queue models its buffer; its capacity is
the 100 fixed by `AddLogListener`. -/
structure LogHub where
  logLines : List String
  logListeners : List (List String)
deriving DecidableEq

/-- Channel capacity allocated by `ProcessInfo.AddLogListener`
(process.go line 64): `make(chan string, 100)`. -/
def logChanCap : Nat := 100

/-- The non-blocking `select`-with-`default` send of
`ProcessInfo.AddLog` (process.go lines 48-55): deliver when the buffer
has free space, silently drop otherwise. -/
def trySend (ch : List String) (line : String) : List String :=
  if ch.length < logChanCap then ch ++ [line] else ch

/-- The broadcast loop of `ProcessInfo.AddLog` over the registered
listeners. -/
def broadcast (line : String) : List (List String) → List (List String)
  | [] => []
  | ch :: rest => trySend ch line :: broadcast line rest

/-- `ProcessInfo.AddLog` (process.go lines 41-56): append the line to
the history, then attempt one non-blocking send per listener.  The
function is total — the producer never blocks. -/
def addLog (p : LogHub) (line : String) : LogHub :=
  { logLines := p.logLines ++ [line],
    logListeners := broadcast line p.logListeners }

/-- The supervisor-side state of one `processContext` (process service,
lines 29-35) together with the fields of its `ProcessInfo` that the
exit monitor touches.  `hasProcess` models `cmd.Process != nil`; Go's
`os/exec` sets `Process` at spawn and never clears it, including after
`Wait` returns.  `stopSignalled` models whether `stopChan` has been
closed by `Stop`. -/
structure ProcessContext where
  hasProcess : Bool
  status : ClientStatus
  lastError : String
  restartCount : Int
  stopSignalled : Bool
deriving DecidableEq

/-- A freshly registered context (process service, lines 82-92 with
`NewProcessInfo`). -/
def newProcessContext : ProcessContext :=
  { hasProcess := true, status := .running, lastError := "",
    restartCount := 0, stopSignalled := false }

/-- `ProcessService.monitorProcess` (process service, lines 266-299)
after `cmd.Wait` returned `exitErr`: an intentional stop (the stop
channel was closed first) returns with no changes; otherwise a non-nil
error is recorded on the handle and the state moves to `Error`; the
auto-restart branch only increments the context's restart counter and
logs — the restart itself is not performed by this code path. -/
def monitorProcessExit (autoRestart : Bool) (maxRestartCount : Int)
    (ctx : ProcessContext) (exitErr : Option String) : ProcessContext :=
  if ctx.stopSignalled then ctx
  else
    let ctx2 :=
      match exitErr with
      | some msg => { ctx with lastError := msg, status := .error }
      | none => ctx
    if autoRestart && decide (ctx2.restartCount < maxRestartCount) then
      { ctx2 with restartCount := ctx2.restartCount + 1 }
    else ctx2

/-- The shared process registry `map[string]*processContext`, with Go
map semantics: at most one binding per key (first-match lookup, updates
replace the binding). -/
abbrev Registry := List (String × ProcessContext)

/-- Registry lookup `s.processes[clientID]`. -/
def lookupCtx (s : Registry) (clientID : String) : Option ProcessContext :=
  match s with
  | [] => none
  | (k, v) :: rest => if clientID == k then some v else lookupCtx rest clientID

/-- `delete(s.processes, clientID)`. -/
def mapDel (s : Registry) (clientID : String) : Registry :=
  s.filter (fun p => !(p.1 == clientID))

/-- Map assignment `s.processes[clientID] = ctx`. -/
def mapSet (s : Registry) (clientID : String) (ctx : ProcessContext) : Registry :=
  (clientID, ctx) :: mapDel s clientID

/-- `ProcessService.IsRunning` (process service, lines 178-188): the
key is present and `ctx.cmd.Process != nil`. -/
def isRunning (s : Registry) (clientID : String) : Bool :=
  match lookupCtx s clientID with
  | none => false
  | some ctx => ctx.hasProcess

/-- `ProcessService.Start` (process service, lines 48-104) restricted
to the registry: fails with the already-running error when a live
handle exists, otherwise registers a fresh context.  The spawn itself
is taken to succeed — the claims below concern the gate, not spawn
failures. -/
def startProcess (s : Registry) (clientID : String) : Except String Registry :=
  match lookupCtx s clientID with
  | some ctx =>
    if ctx.hasProcess then .error ("client already running: " ++ clientID)
    else .ok (mapSet s clientID newProcessContext)
  | none => .ok (mapSet s clientID newProcessContext)

/-- `ProcessService.Stop` (process service, lines 107-150) restricted
to the registry: fails with not-running when the key is absent,
otherwise closes the handle's listeners and removes it. -/
def stopProcess (s : Registry) (clientID : String) : Except String Registry :=
  match lookupCtx s clientID with
  | none => .error ("client not running: " ++ clientID)
  | some _ => .ok (mapDel s clientID)

/-- `ProcessService.monitorProcess` acting on the registry entry it
holds a pointer to: the context fields are updated in place and the
binding stays in the map — the monitor never deletes it. -/
def monitorExitReg (autoRestart : Bool) (maxRestartCount : Int) (s : Registry)
    (clientID : String) (exitErr : Option String) : Registry :=
  match lookupCtx s clientID with
  | none => s
  | some ctx => mapSet s clientID (monitorProcessExit autoRestart maxRestartCount ctx exitErr)

/-! ## Concrete inputs used by counterexamples and witnesses -/

/-- Two distinct events with equal timestamps. -/
def eventTieA : Event :=
  { Event.zero with id := "a", timestamp := 5 }

/-- See `eventTieA`. -/
def eventTieB : Event :=
  { Event.zero with id := "b", timestamp := 5 }

/-- A list request whose only active filter is the timestamp range. -/
def rangeOnlyRequest (tFrom tTo : Int) : EventListRequest :=
  { page := 1, pageSize := 20, eventType := "", status := "", search := "",
    dateFrom := tFrom, dateTo := tTo, sortBy := "timestamp", sortOrder := "desc" }

/-- An event whose timestamp sits exactly on the upper bound of the
queried range. -/
def eventAtUpperBound : Event :=
  { Event.zero with timestamp := 100 }

/-- A parser standing for `time.Parse` that always fails; the C8 inputs
carry no timestamp anyway. -/
def noParse : String → Option Int := fun _ => none

/-- A stored event object with no structured status field and a
negative status code. -/
def negStatusShape : List (String × JsonVal) :=
  [("statusCode", JsonVal.num (-1))]

/-- A list request with a negative page number, as it reaches the
repository after the handler's normalization (which only rewrites the
value 0). -/
def listReqNegPage : EventListRequest :=
  { page := -1, pageSize := 20, eventType := "", status := "", search := "",
    dateFrom := 0, dateTo := 0, sortBy := "timestamp", sortOrder := "desc" }

/-- The directory tree holding the two valid records of the batch-delete
scenario. -/
def batchDirAB : EventsDir :=
  { flat := ["a", "b"], dated := [] }

/-! ## Helper lemmas -/

/-- The exit monitor never changes whether the command has a spawned
process: `cmd.Process` stays non-nil after `Wait`. -/
theorem monitorExit_hasProcess (ar : Bool) (mrc : Int) (ctx : ProcessContext)
    (e : Option String) :
    (monitorProcessExit ar mrc ctx e).hasProcess = ctx.hasProcess := by
  unfold monitorProcessExit
  split <;> cases e <;> simp <;> split <;> simp

/-- A crash observed without a stop signal records the error and moves
the state to `Error`. -/
theorem monitorExit_crash (ar : Bool) (mrc : Int) (ctx : ProcessContext) (msg : String)
    (h : ctx.stopSignalled = false) :
    (monitorProcessExit ar mrc ctx (some msg)).status = .error ∧
    (monitorProcessExit ar mrc ctx (some msg)).lastError = msg := by
  unfold monitorProcessExit
  simp [h]
  split <;> simp

theorem lookupCtx_mapSet_self (s : Registry) (cid : String) (ctx : ProcessContext) :
    lookupCtx (mapSet s cid ctx) cid = some ctx := by
  simp [mapSet, lookupCtx]

theorem lookupCtx_mapDel_self (s : Registry) (cid : String) :
    lookupCtx (mapDel s cid) cid = none := by
  induction s with
  | nil => rfl
  | cons p rest ih =>
    by_cases h : p.1 = cid
    · simpa [mapDel, lookupCtx, h] using ih
    · simpa [mapDel, lookupCtx, h, Ne.symm h] using ih

/-! ## C1 -/

/-- C1 counterexample: an owner whose storage usage percentage is 150
(≥ 100, storage cap exceeded) but whose client count is below the cap is
not blocked — `ClientService.Create` proceeds, because
`Quota.CanCreateClient` consults only the client-count limit. -/
theorem create_allowed_despite_storage_full :
    clientServiceCreate quotaStorageFull = .ok () ∧
    quotaStorageFull.IsStorageFull = true ∧
    quotaStorageFull.percentage ≥ 100 := by
  refine ⟨rfl, by decide, by decide⟩

/-- C1 amended: creating a client is blocked exactly when the
client-count cap is reached; the storage usage percentage has no
influence on the decision. -/
theorem create_blocked_iff_client_limit (q : Quota) (p : ℚ) :
    clientServiceCreate { q with percentage := p } = clientServiceCreate q ∧
    (clientServiceCreate q = .ok () ↔ q.clientsCount < q.maxClients) := by
  constructor
  · simp [clientServiceCreate, Quota.CanCreateClient, Quota.IsClientsLimitReached]
  · by_cases h : q.maxClients ≤ q.clientsCount <;>
      simp [clientServiceCreate, Quota.CanCreateClient, Quota.IsClientsLimitReached, h] <;>
      omega

/-! ## C6 -/

/-- C6 counterexample: a supervised process that exits cleanly (exit
status 0, `Wait` returns nil) without any stop signal — an exit observed
without a stop, hence a "crash" in the claim's sense — leaves the handle
completely unchanged: the state stays `Running` and no error text is
recorded. -/
theorem clean_exit_without_stop_unchanged :
    monitorProcessExit false 0 newProcessContext none = newProcessContext ∧
    newProcessContext.status ≠ ClientStatus.error ∧
    newProcessContext.stopSignalled = false := by
  refine ⟨by decide, by decide, by decide⟩

/-- C6 amended: when the exit is observed without a stop signal and
`Wait` reports a non-nil error (a crash with an error), the monitor
records the error text and transitions the state to `Error`; an
intentionally stopped process undergoes neither change. -/
theorem monitor_crash_records_error (ar : Bool) (mrc : Int) (ctx : ProcessContext)
    (e : Option String) (msg : String) :
    (ctx.stopSignalled = true → monitorProcessExit ar mrc ctx e = ctx) ∧
    (ctx.stopSignalled = false →
      (monitorProcessExit ar mrc ctx (some msg)).status = .error ∧
      (monitorProcessExit ar mrc ctx (some msg)).lastError = msg) := by
  constructor
  · intro h; unfold monitorProcessExit; simp [h]
  · intro h; exact monitorExit_crash ar mrc ctx msg h

/-- C6 witness. -/
theorem monitor_crash_records_error_witness :
    newProcessContext.stopSignalled = false ∧
    ((monitorProcessExit false 0 newProcessContext (some "boom")).status = .error ∧
      (monitorProcessExit false 0 newProcessContext (some "boom")).lastError = "boom") :=
  ⟨rfl, (monitor_crash_records_error false 0 newProcessContext (some "boom") "boom").2 rfl⟩

/-- The broadcast loop is a pointwise map over the listener list. -/
theorem broadcast_eq_map (line : String) (l : List (List String)) :
    broadcast line l = l.map (fun ch => trySend ch line) := by
  induction l with
  | nil => rfl
  | cons ch rest ih => simp [broadcast, ih]

/-! ## C7 -/

/-- C7: `AddLog` appends the line to the in-memory history and, for each
registered subscriber independently, delivers the line when the
subscriber's channel buffer has free space and silently drops it for
that subscriber when the buffer is full; the function is total, so the
producer never blocks, and each subscriber's outcome depends only on its
own buffer. -/
theorem addLog_delivery (p : LogHub) (line : String) (i : Nat) (ch : List String)
    (h : p.logListeners[i]? = some ch) :
    (addLog p line).logLines = p.logLines ++ [line] ∧
    (addLog p line).logListeners.length = p.logListeners.length ∧
    (addLog p line).logListeners[i]? =
      some (if ch.length < logChanCap then ch ++ [line] else ch) := by
  refine ⟨rfl, ?_, ?_⟩
  · simp [addLog, broadcast_eq_map]
  · simp [addLog, broadcast_eq_map, trySend, h]

/-- C7 witness. -/
theorem addLog_delivery_witness :
    ({ logLines := [], logListeners := [[]] } : LogHub).logListeners[0]? = some [] ∧
    ((addLog { logLines := [], logListeners := [[]] } "x").logLines = [] ++ ["x"] ∧
      (addLog { logLines := [], logListeners := [[]] } "x").logListeners.length =
        ({ logLines := [], logListeners := [[]] } : LogHub).logListeners.length ∧
      (addLog { logLines := [], logListeners := [[]] } "x").logListeners[0]? =
        some (if ([] : List String).length < logChanCap then [] ++ ["x"] else [])) :=
  ⟨rfl, addLog_delivery { logLines := [], logListeners := [[]] } "x" 0 [] rfl⟩

/-! ## C10 -/

/-- C10: after a crash is handled by the exit monitor, the handle stays
in the registry with its process still attached: `IsRunning` keeps
returning true, a subsequent `Start` fails with the already-running
error, the context carries the `Error` state, and a `Stop` succeeds and
removes the handle. -/
theorem crashed_handle_stays_registered (ar : Bool) (mrc : Int) (s : Registry)
    (cid : String) (ctx : ProcessContext) (msg : String)
    (h1 : lookupCtx s cid = some ctx) (h2 : ctx.hasProcess = true)
    (h3 : ctx.stopSignalled = false) :
    isRunning (monitorExitReg ar mrc s cid (some msg)) cid = true ∧
    startProcess (monitorExitReg ar mrc s cid (some msg)) cid =
      .error ("client already running: " ++ cid) ∧
    (∃ ctx2, lookupCtx (monitorExitReg ar mrc s cid (some msg)) cid = some ctx2 ∧
      ctx2.status = .error ∧ ctx2.hasProcess = true) ∧
    stopProcess (monitorExitReg ar mrc s cid (some msg)) cid =
      .ok (mapDel (monitorExitReg ar mrc s cid (some msg)) cid) ∧
    lookupCtx (mapDel (monitorExitReg ar mrc s cid (some msg)) cid) cid = none := by
  have hreg : monitorExitReg ar mrc s cid (some msg) =
      mapSet s cid (monitorProcessExit ar mrc ctx (some msg)) := by
    unfold monitorExitReg; rw [h1]
  have hlook : lookupCtx (monitorExitReg ar mrc s cid (some msg)) cid =
      some (monitorProcessExit ar mrc ctx (some msg)) := by
    rw [hreg]; exact lookupCtx_mapSet_self s cid _
  have hproc : (monitorProcessExit ar mrc ctx (some msg)).hasProcess = true := by
    rw [monitorExit_hasProcess]; exact h2
  refine ⟨?_, ?_, ?_, ?_, ?_⟩
  · simp [isRunning, hlook, hproc]
  · simp [startProcess, hlook, hproc]
  · exact ⟨monitorProcessExit ar mrc ctx (some msg), hlook,
      (monitorExit_crash ar mrc ctx msg h3).1, hproc⟩
  · simp [stopProcess, hlook]
  · exact lookupCtx_mapDel_self _ cid

/-- C10 witness. -/
theorem crashed_handle_stays_registered_witness :
    lookupCtx [("c1", newProcessContext)] "c1" = some newProcessContext ∧
    newProcessContext.hasProcess = true ∧
    newProcessContext.stopSignalled = false ∧
    isRunning (monitorExitReg false 0 [("c1", newProcessContext)] "c1" (some "boom")) "c1" = true :=
  ⟨rfl, rfl, rfl,
    (crashed_handle_stays_registered false 0 [("c1", newProcessContext)] "c1"
      newProcessContext "boom" rfl rfl rfl).1⟩

/-- Bubbling an element into the reversed prefix is a permutation. -/
theorem insRev_perm (cmp : α → α → Bool) (x : α) (l : List α) :
    (insRev cmp x l).Perm (x :: l) := by
  induction l with
  | nil => simp [insRev]
  | cons y ys ih =>
    unfold insRev
    split
    · exact (ih.cons y).trans (List.Perm.swap x y ys)
    · exact List.Perm.refl _

/-- The insertion-sort fold permutes the carried prefix and the
remaining input. -/
theorem sortSliceAux_perm (cmp : α → α → Bool) (l racc : List α) :
    (sortSliceAux cmp racc l).Perm (racc ++ l) := by
  induction l generalizing racc with
  | nil => simp [sortSliceAux]
  | cons x xs ih =>
    have h1 : (sortSliceAux cmp (insRev cmp x racc) xs).Perm (insRev cmp x racc ++ xs) :=
      ih _
    have h2 : (insRev cmp x racc ++ xs).Perm ((x :: racc) ++ xs) :=
      (insRev_perm cmp x racc).append_right xs
    have h3 : ((x :: racc) ++ xs).Perm (racc ++ x :: xs) := by
      simpa using List.perm_middle.symm
    exact (h1.trans h2).trans h3

/-! ## C3 -/

/-- C3 counterexample: sorting two events with equal timestamps in the
default descending direction reverses their pre-sort relative order —
the comparator passed to the sorter returns true on ties (it is the
negation of strict less), so the insertion sort swaps equal elements.
The sort is therefore not stable. -/
theorem sort_ties_reversed_desc :
    sortEvents [eventTieA, eventTieB] "timestamp" "desc" = [eventTieB, eventTieA] ∧
    eventTieA.timestamp = eventTieB.timestamp ∧
    eventTieA ≠ eventTieB := by
  refine ⟨by decide, by decide, by decide⟩

/-- C3 amended: the sort performed by `List` returns a permutation of
the filtered events ordered by the requested comparator, but it is not
stable — in the descending direction two events that compare equal on
the sort field have their pre-sort relative order reversed (see the
counterexample).  The length bound keeps the embedding in the regime
where Go's `sort.Slice` provably runs plain insertion sort. -/
theorem sortEvents_perm (events : List Event) (sortBy sortOrder : String)
    (h : events.length ≤ 12) :
    (sortEvents events sortBy sortOrder).Perm events := by
  unfold sortEvents sortSlice
  exact (List.reverse_perm _).trans
    (by simpa using sortSliceAux_perm (sortCmp sortBy sortOrder) events [])

/-- C3 witness. -/
theorem sortEvents_perm_witness :
    ([eventTieA, eventTieB] : List Event).length ≤ 12 ∧
    (sortEvents [eventTieA, eventTieB] "timestamp" "desc").Perm [eventTieA, eventTieB] :=
  ⟨by decide, sortEvents_perm [eventTieA, eventTieB] "timestamp" "desc" (by decide)⟩

/-! ## C4 -/

/-- C4 counterexample: with range bounds from = 50 and to = 100, an
event with timestamp exactly 100 is returned by the filter — the upper
bound is inclusive (`Timestamp.After(DateTo)` is strict), contradicting
the half-open [from, to) reading. -/
theorem filter_keeps_upper_bound :
    filterEvents [eventAtUpperBound] (rangeOnlyRequest 50 100) = [eventAtUpperBound] ∧
    eventAtUpperBound.timestamp = (rangeOnlyRequest 50 100).dateTo := by
  refine ⟨by decide, by decide⟩

/-- C4 amended: with a timestamp range filter whose bounds are non-zero
(a zero bound disables that side), `List` returns exactly the events
whose timestamp t satisfies from ≤ t ≤ to — both bounds inclusive. -/
theorem filter_range_inclusive (events : List Event) (tFrom tTo : Int)
    (h1 : tFrom ≠ 0) (h2 : tTo ≠ 0) (e : Event) :
    e ∈ filterEvents events (rangeOnlyRequest tFrom tTo) ↔
      e ∈ events ∧ tFrom ≤ e.timestamp ∧ e.timestamp ≤ tTo := by
  simp only [filterEvents, List.mem_filter, keepEvent, rangeOnlyRequest]
  constructor
  · rintro ⟨hm, hk⟩
    simp [h1, h2] at hk
    exact ⟨hm, by omega⟩
  · rintro ⟨hm, hlo, hhi⟩
    refine ⟨hm, ?_⟩
    simp [h1, h2]
    omega

/-- C4 witness. -/
theorem filter_range_inclusive_witness :
    (50 : Int) ≠ 0 ∧ (100 : Int) ≠ 0 ∧
    (eventAtUpperBound ∈ filterEvents [eventAtUpperBound] (rangeOnlyRequest 50 100) ↔
      eventAtUpperBound ∈ [eventAtUpperBound] ∧ 50 ≤ eventAtUpperBound.timestamp ∧
        eventAtUpperBound.timestamp ≤ 100) :=
  ⟨by decide, by decide,
    filter_range_inclusive [eventAtUpperBound] 50 100 (by decide) (by decide) eventAtUpperBound⟩

/-! ## C5 -/

/-- C5: decoding the legacy snake_case shape of an event (alternate
field names, response metadata nested under a `response` object) and
decoding the structured canonical shape of the same event produce
identical externally observable summaries — same id, timestamp, event
type, source, status, HTTP status code and latency — for every event
record and every timestamp parser. -/
theorem legacy_and_canonical_same_summary (parseTime : String → Option Int)
    (id clientID ts etype source status : String) (sc lat : Int) (payload : String) :
    (unmarshalEvent parseTime
      (canonicalShape id clientID ts etype source status sc lat payload)).toSummary =
    (unmarshalEvent parseTime
      (legacyShape id clientID ts etype source status sc lat payload)).toSummary := by
  simp only [unmarshalEvent, canonicalShape, legacyShape, jlookup, extractString,
    firstNonEmptyString, firstNonZeroInt, extractMap, extractStringMap, stringifyKey,
    extractedStatusCode, inferStatus, goToString, goToInt, Event.toSummary,
    String.reduceEq, beq_iff_eq, reduceIte]
  simp

/-- The status code decoded by `UnmarshalJSON` is the coalesced status
code of the raw object. -/
theorem unmarshalEvent_statusCode (parseTime : String → Option Int)
    (raw : List (String × JsonVal)) :
    (unmarshalEvent parseTime raw).statusCode = extractedStatusCode raw := rfl

/-- The status decoded by `UnmarshalJSON` is the inference applied to
the coalesced structured status and status code. -/
theorem unmarshalEvent_status (parseTime : String → Option Int)
    (raw : List (String × JsonVal)) :
    (unmarshalEvent parseTime raw).status =
      inferStatus (firstNonEmptyString raw ["status", "forward_status"])
        (extractedStatusCode raw) := rfl

/-- The repository backfill replaces only an empty status. -/
theorem enrichEventStatus_status (e : Event) :
    (enrichEventStatus e).status =
      if e.status = "" then eventStatusNotReplayed else e.status := by
  unfold enrichEventStatus
  split <;> simp_all

/-! ## C8 -/

/-- C8 counterexample: a stored event with no structured status and
status code -1 — a non-zero code — decodes to status `not_replayed`,
not `failed`: the inference only treats strictly positive codes outside
2xx as failures. -/
theorem neg_code_not_failed :
    (enrichEventStatus (unmarshalEvent noParse negStatusShape)).status =
      eventStatusNotReplayed ∧
    (unmarshalEvent noParse negStatusShape).statusCode = -1 ∧
    eventStatusNotReplayed ≠ eventStatusFailed := by
  refine ⟨by decide, by decide, by decide⟩

/-- C8 amended: for every stored event object carrying no structured
status (neither `status` nor `forward_status` yields one), the decoded
and enriched status is inferred from the extracted HTTP status code:
2xx gives `success`, any other strictly positive code gives `failed`,
and when no positive code is present the status is `not_replayed`. -/
theorem status_inferred_from_code (parseTime : String → Option Int)
    (raw : List (String × JsonVal))
    (h : firstNonEmptyString raw ["status", "forward_status"] = "") :
    (enrichEventStatus (unmarshalEvent parseTime raw)).status =
      if 200 ≤ (unmarshalEvent parseTime raw).statusCode ∧
          (unmarshalEvent parseTime raw).statusCode < 300 then eventStatusSuccess
      else if 0 < (unmarshalEvent parseTime raw).statusCode then eventStatusFailed
      else eventStatusNotReplayed := by
  rw [enrichEventStatus_status, unmarshalEvent_status, unmarshalEvent_statusCode, h]
  unfold inferStatus
  split_ifs <;>
    simp_all [eventStatusSuccess, eventStatusFailed, eventStatusNotReplayed]

/-- C8 witness. -/
theorem status_inferred_from_code_witness :
    firstNonEmptyString [("statusCode", JsonVal.num 404)] ["status", "forward_status"] = "" ∧
    (enrichEventStatus (unmarshalEvent noParse [("statusCode", JsonVal.num 404)])).status =
      (if 200 ≤ (unmarshalEvent noParse [("statusCode", JsonVal.num 404)]).statusCode ∧
          (unmarshalEvent noParse [("statusCode", JsonVal.num 404)]).statusCode < 300 then
        eventStatusSuccess
      else if 0 < (unmarshalEvent noParse [("statusCode", JsonVal.num 404)]).statusCode then
        eventStatusFailed
      else eventStatusNotReplayed) :=
  ⟨rfl, status_inferred_from_code noParse [("statusCode", JsonVal.num 404)] rfl⟩

/-! ## C9 -/

/-- The handler turns a non-negative page into a positive one. -/
theorem normalize_page_pos (req : EventListRequest) (h : 0 ≤ req.page) :
    1 ≤ (normalizeListRequest req).page := by
  simp only [normalizeListRequest]
  by_cases h0 : req.page = 0 <;> simp [h0] <;> omega

/-- The handler turns a non-negative page size into a positive one. -/
theorem normalize_pageSize_pos (req : EventListRequest) (h : 0 ≤ req.pageSize) :
    1 ≤ (normalizeListRequest req).pageSize := by
  simp only [normalizeListRequest]
  by_cases h0 : req.pageSize = 0 <;> simp [h0] <;> omega

/-- For a positive page and page size the Go pagination arithmetic never
produces an invalid slice, and a start index at or past the end gives
the empty page. -/
theorem paginateGo_ok (L : List α) (p s : Int) (hp : 1 ≤ p) (hs : 1 ≤ s) :
    ∃ paged, paginateGo L p s = .ok paged ∧
      ((p - 1) * s ≥ (L.length : Int) → paged = []) := by
  by_cases hc : (p - 1) * s ≥ (L.length : Int)
  · refine ⟨[], ?_, fun _ => rfl⟩
    simp only [paginateGo, if_pos hc, goSlice]
    have h0 : ¬((0 : Int) > (L.length : Int)) := by omega
    simp [h0]
  · have hstart0 : 0 ≤ (p - 1) * s := mul_nonneg (by omega) (by omega)
    simp only [paginateGo, if_neg hc, goSlice]
    by_cases hclamp : (p - 1) * s + s > (L.length : Int)
    · rw [if_pos hclamp, if_pos (by refine ⟨by omega, by omega, by omega⟩)]
      exact ⟨_, rfl, fun hcontra => absurd hcontra hc⟩
    · rw [if_neg hclamp, if_pos (by refine ⟨by omega, by omega, by omega⟩)]
      exact ⟨_, rfl, fun hcontra => absurd hcontra hc⟩

/-- C9 amended: for every page and page size that are non-negative on
entry (the handler coerces 0 to the defaults but lets negative values
through), the full `List` pipeline returns a response — no error and no
slice panic — whose total is the full filtered count, and a page past
the last matching event is empty.  Negative page numbers, by contrast,
reach the repository unchanged and trigger the slice-bounds panic shown
in the counterexample. -/
theorem list_out_of_range_empty (events : List Event) (req : EventListRequest)
    (h1 : 0 ≤ req.page) (h2 : 0 ≤ req.pageSize) :
    ∃ paged, handlerList events req = .ok
      { total := ((listedEvents events (normalizeListRequest req)).length : Int),
        page := (normalizeListRequest req).page,
        pageSize := (normalizeListRequest req).pageSize,
        events := paged } ∧
      (((normalizeListRequest req).page - 1) * (normalizeListRequest req).pageSize ≥
          ((listedEvents events (normalizeListRequest req)).length : Int) →
        paged = []) := by
  obtain ⟨paged, hok, hempty⟩ :=
    paginateGo_ok (listedEvents events (normalizeListRequest req))
      (normalizeListRequest req).page (normalizeListRequest req).pageSize
      (normalize_page_pos req h1) (normalize_pageSize_pos req h2)
  refine ⟨paged.map Event.toSummary, ?_, fun hc => by rw [hempty hc]; rfl⟩
  simp only [handlerList, getByClientID, hok]

/-- C9 witness. -/
theorem list_out_of_range_empty_witness :
    (0 : Int) ≤ 1 ∧ (0 : Int) ≤ 20 ∧
    ∃ paged, handlerList [] (rangeOnlyRequest 50 100) = .ok
      { total := ((listedEvents [] (normalizeListRequest (rangeOnlyRequest 50 100))).length : Int),
        page := (normalizeListRequest (rangeOnlyRequest 50 100)).page,
        pageSize := (normalizeListRequest (rangeOnlyRequest 50 100)).pageSize,
        events := paged } ∧
      (((normalizeListRequest (rangeOnlyRequest 50 100)).page - 1) *
            (normalizeListRequest (rangeOnlyRequest 50 100)).pageSize ≥
          ((listedEvents [] (normalizeListRequest (rangeOnlyRequest 50 100))).length : Int) →
        paged = []) :=
  ⟨by decide, by decide,
    list_out_of_range_empty [] (rangeOnlyRequest 50 100) (by decide) (by decide)⟩

/-- C9 counterexample: a page number of -1 — "at or below zero" in the
claim's words — passes the handler's defaults untouched and makes the
repository compute the Go slice `filtered[-40:-20]`, which panics
(modelled as the error result) instead of yielding an empty page. -/
theorem negative_page_panics :
    handlerList [eventTieA] listReqNegPage = .error "slice bounds out of range" ∧
    (normalizeListRequest listReqNegPage).page = -1 := by
  refine ⟨rfl, rfl⟩

/-! ## C2 -/

/-- `DeleteBatch` always reports overall success, whatever happened to
the individual deletions. -/
theorem deleteBatch_ok (fs : EventsDir) (ids : List String) :
    (deleteBatch fs ids).2 = .ok () := by
  induction ids generalizing fs with
  | nil => rfl
  | cons x rest ih => exact ih _

/-- Removing one record from the day directories only removes ids. -/
theorem deleteFromDated_sublist (x : String) (ds ds2 : List (String × List String))
    (h : deleteFromDated x ds = some ds2) :
    (ds2.flatMap (fun d => d.2)).Sublist (ds.flatMap (fun d => d.2)) := by
  induction ds generalizing ds2 with
  | nil => simp [deleteFromDated] at h
  | cons d rest ih =>
    unfold deleteFromDated at h
    split at h
    · obtain rfl : (d.1, d.2.erase x) :: rest = ds2 := by injection h
      simpa using (List.erase_sublist x d.2).append
        (List.Sublist.refl (rest.flatMap fun e => e.2))
    · revert h
      match hrec : deleteFromDated x rest with
      | none => intro h; cases h
      | some rest2 =>
        intro h
        obtain rfl : d :: rest2 = ds2 := by injection h
        simpa using (List.Sublist.refl d.2).append (ih rest2 hrec)

/-- `Delete` only removes ids from the tree. -/
theorem deleteEvent_sublist (fs : EventsDir) (x : String) :
    ((deleteEvent fs x).1.allIds).Sublist fs.allIds := by
  unfold deleteEvent
  split
  · simpa [EventsDir.allIds] using
      (List.erase_sublist x fs.flat).append
        (List.Sublist.refl (fs.dated.flatMap fun d => d.2))
  · match hdd : deleteFromDated x fs.dated with
    | some ds2 =>
      simpa [EventsDir.allIds] using
        (List.Sublist.refl fs.flat).append (deleteFromDated_sublist x fs.dated ds2 hdd)
    | none => simp [EventsDir.allIds]

/-- A whole batch only removes ids from the tree. -/
theorem deleteBatch_sublist (fs : EventsDir) (ids : List String) :
    ((deleteBatch fs ids).1.allIds).Sublist fs.allIds := by
  induction ids generalizing fs with
  | nil => exact List.Sublist.refl _
  | cons x rest ih => exact (ih _).trans (deleteEvent_sublist fs x)

/-- When no day directory holds the record, the id is nowhere in the
day directories. -/
theorem deleteFromDated_none_not_mem (x : String) (ds : List (String × List String))
    (h : deleteFromDated x ds = none) : x ∉ ds.flatMap (fun d => d.2) := by
  induction ds with
  | nil => simp
  | cons d rest ih =>
    unfold deleteFromDated at h
    split at h
    · cases h
    · revert h
      match hrec : deleteFromDated x rest with
      | some rest2 => intro h; cases h
      | none =>
        intro _
        simp only [List.flatMap_cons, List.mem_append]
        rintro (hmem | hmem)
        · simp_all [List.contains, List.elem_eq_mem]
        · exact ih hrec hmem

/-- With no duplicate ids, removing the first found copy removes the id
from the day directories entirely. -/
theorem deleteFromDated_not_mem (x : String) (ds ds2 : List (String × List String))
    (hn : (ds.flatMap (fun d => d.2)).Nodup)
    (h : deleteFromDated x ds = some ds2) :
    x ∉ ds2.flatMap (fun d => d.2) := by
  induction ds generalizing ds2 with
  | nil => simp [deleteFromDated] at h
  | cons d rest ih =>
    simp only [List.flatMap_cons, List.nodup_append] at hn
    unfold deleteFromDated at h
    split at h
    · obtain rfl : (d.1, d.2.erase x) :: rest = ds2 := by injection h
      have hx : x ∈ d.2 := by simp_all [List.contains, List.elem_eq_mem]
      simp only [List.flatMap_cons, List.mem_append]
      rintro (hmem | hmem)
      · exact ((hn.1.mem_erase_iff.mp hmem).1) rfl
      · exact hn.2.2 hx hmem
    · revert h
      match hrec : deleteFromDated x rest with
      | none => intro h; cases h
      | some rest2 =>
        intro h
        obtain rfl : d :: rest2 = ds2 := by injection h
        simp only [List.flatMap_cons, List.mem_append]
        rintro (hmem | hmem)
        · simp_all [List.contains, List.elem_eq_mem]
        · exact ih rest2 hn.2.1 hrec hmem

/-- With no duplicate ids in the tree, `Delete` leaves no copy of the
deleted id behind. -/
theorem deleteEvent_not_mem (fs : EventsDir) (x : String)
    (h : fs.allIds.Nodup) : x ∉ (deleteEvent fs x).1.allIds := by
  simp only [EventsDir.allIds, List.nodup_append] at h
  unfold deleteEvent
  split
  · simp only [EventsDir.allIds, List.mem_append]
    have hx : x ∈ fs.flat := by simp_all [List.contains, List.elem_eq_mem]
    rintro (hmem | hmem)
    · exact ((h.1.mem_erase_iff.mp hmem).1) rfl
    · exact h.2.2 hx hmem
  · match hdd : deleteFromDated x fs.dated with
    | some ds2 =>
      simp only [EventsDir.allIds, List.mem_append]
      rintro (hmem | hmem)
      · simp_all [List.contains, List.elem_eq_mem]
      · exact deleteFromDated_not_mem x fs.dated ds2 h.2.1 hdd hmem
    | none =>
      simp only [EventsDir.allIds, List.mem_append]
      rintro (hmem | hmem)
      · simp_all [List.contains, List.elem_eq_mem]
      · exact deleteFromDated_none_not_mem x fs.dated hdd hmem

/-- C2 amended: batch delete is best-effort per item — an individual
failure does not abort the remaining deletions, every id of the batch
that was present is deleted (assuming each event id is stored at most
once, as the forwarder writes them), and the overall call reports
success; but no itemized per-item results are produced — the
repository's return value is the bare success, so individual failures
are silently discarded (see the counterexample). -/
theorem batch_best_effort_no_itemized (fs : EventsDir) (ids : List String)
    (h : fs.allIds.Nodup) :
    (deleteBatch fs ids).2 = .ok () ∧
    ∀ eventID ∈ ids, eventID ∉ (deleteBatch fs ids).1.allIds := by
  refine ⟨deleteBatch_ok fs ids, ?_⟩
  induction ids generalizing fs with
  | nil => simp
  | cons x rest ih =>
    intro eventID hid
    have hstep : deleteBatch fs (x :: rest) = deleteBatch (deleteEvent fs x).1 rest := rfl
    rw [hstep]
    have hn2 : (deleteEvent fs x).1.allIds.Nodup :=
      (deleteEvent_sublist fs x).nodup h
    rcases List.mem_cons.mp hid with rfl | hmem
    · intro hfin
      exact deleteEvent_not_mem fs eventID h
        ((deleteBatch_sublist (deleteEvent fs eventID).1 rest).mem hfin)
    · exact ih (deleteEvent fs x).1 hn2 eventID hmem

/-- C2 counterexample: batch-deleting `["a", "bad", "b"]` where `"bad"`
does not exist deletes the two valid records and succeeds overall, but
the caller receives no itemized per-item results: the returned value is
the bare `ok`, indistinguishable from the fully-valid batch
`["a", "b"]`, even though deleting `"bad"` alone fails with not-found —
the per-item failure is silently discarded. -/
theorem batch_failure_not_reported :
    deleteBatch batchDirAB ["a", "bad", "b"] =
      ({ flat := [], dated := [] }, .ok ()) ∧
    (deleteBatch batchDirAB ["a", "bad", "b"]).2 =
      (deleteBatch batchDirAB ["a", "b"]).2 ∧
    (deleteEvent batchDirAB "bad").2 = .error "event not found: bad" := by
  refine ⟨rfl, rfl, rfl⟩

/-- C2 witness. -/
theorem batch_best_effort_no_itemized_witness :
    batchDirAB.allIds.Nodup ∧
    ((deleteBatch batchDirAB ["a", "bad", "b"]).2 = .ok () ∧
      ∀ eventID ∈ ["a", "bad", "b"],
        eventID ∉ (deleteBatch batchDirAB ["a", "bad", "b"]).1.allIds) :=
  ⟨by decide, batch_best_effort_no_itemized batchDirAB ["a", "bad", "b"] (by decide)⟩

end Gosmee
